import Mathlib

/-!
Verification of the toolbox repository's natural-language specification
against a shallow Lean embedding of its JavaScript sources.

Each section embeds one part of the code (retry guards, bounded-concurrency
mapper, paginated fetchers, date validation, spreadsheet normalization,
result reporting, receipt validation) and proves or refutes the frozen
claims about it.
-/

namespace Toolbox

/-! ## JavaScript error values

Errors thrown by the remote SDK calls carry an optional numeric HTTP
status and a message string.  A thrown value that is not an Error object
(nugget's `throw lastError` when the loop body never ran throws
`undefined`) is modelled by `Option JsError` with `none` for `undefined`. -/

structure JsError where
  status : Option Nat
  message : String
deriving DecidableEq

/-- Embeds JavaScript `haystack.includes(needle)` on strings: true iff
`needle` occurs contiguously inside `haystack`. -/
def listHasSub (hay needle : List Char) : Bool :=
  match hay with
  | [] => needle.isEmpty
  | _ :: t => needle.isPrefixOf hay || listHasSub t needle

/-- String form of `listHasSub`, the model of JS `String.prototype.includes`. -/
def jsIncludes (hay needle : String) : Bool :=
  listHasSub hay.data needle.data

/-! ## Retry guards

`src/nugget/index.js` lines 69-91 and `src/feed2llm/index.js` lines
108-120 each wrap an asynchronous operation in retry logic.  The
operation is modelled as a function from the invocation index (0-based)
to the result of that invocation; the random jitter factor
`0.5 + Math.random()` of nugget is modelled as a function from the
attempt index to the drawn factor.  A run is summarised by its final
result, the total number of invocations of the operation, and the list
of delays slept between consecutive invocations. -/

structure RetryTrace (α : Type) where
  result : Except (Option JsError) α
  calls : Nat
  delays : List ℚ

/-- Embeds nugget's transient-error test: the retry branch is taken iff
`error.status` is truthy and equals 429 or 503 (the code throws when
`!error.status || (error.status !== 429 && error.status !== 503)`). -/
def nuggetTransient (e : JsError) : Bool :=
  e.status = some 429 || e.status = some 503

/-- Embeds the body of nugget's `withRetry` loop
(`for (let attempt = 0; attempt < maxRetries; attempt++)`).  `attempt`
is the current loop index and `fuel` the number of remaining iterations
(`maxRetries - attempt` along every top-level call chain); the `fuel = 0`
case is the fall-through `throw lastError`, reached only when
`maxRetries = 0`, where `lastError` is still `undefined`.  The delay
before retry `attempt+1` is `initialDelay * 2^attempt * (0.5 + random)`,
with the drawn factor supplied by `jitter`. -/
def nuggetRetryGo (op : Nat → Except JsError α) (d0 : ℚ) (jitter : Nat → ℚ)
    (maxRetries : Nat) : Nat → Nat → RetryTrace α
  | attempt, 0 => ⟨Except.error none, attempt, []⟩
  | attempt, fuel + 1 =>
    match op attempt with
    | Except.ok v => ⟨Except.ok v, attempt + 1, []⟩
    | Except.error e =>
      if nuggetTransient e then
        if attempt + 1 = maxRetries then ⟨Except.error (some e), attempt + 1, []⟩
        else
          let d := d0 * 2 ^ attempt * jitter attempt
          let rest := nuggetRetryGo op d0 jitter maxRetries (attempt + 1) fuel
          ⟨rest.result, rest.calls, d :: rest.delays⟩
      else ⟨Except.error (some e), attempt + 1, []⟩

/-- Embeds nugget's `withRetry(operation, maxRetries, initialDelay)`. -/
def nuggetRetry (op : Nat → Except JsError α) (d0 : ℚ) (jitter : Nat → ℚ)
    (maxRetries : Nat) : RetryTrace α :=
  nuggetRetryGo op d0 jitter maxRetries 0 maxRetries

/-- Embeds feed2llm's transient-error test:
`error.message.includes('rate_limit_error')`. -/
def feedTransient (e : JsError) : Bool :=
  jsIncludes e.message "rate_limit_error"

/-- Embeds feed2llm's recursive `withRetry(operation, { retryCount, delay })`:
on a transient error with `retryCount < DEFAULTS.maxRetries` it waits
`min(delay * 2, maxRetryDelay)` and recurses with that delay and
`retryCount + 1`; any other error, or retry exhaustion, rethrows.  `fuel`
bounds the recursion depth (`maxRetries - retryCount + 1` suffices along
every top-level call chain, so the `fuel = 0` case is unreachable). -/
def feedRetryGo (op : Nat → Except JsError α) (maxRetries : Nat)
    (maxRetryDelay : ℚ) : Nat → Nat → ℚ → RetryTrace α
  | 0, retryCount, _ => ⟨Except.error none, retryCount, []⟩
  | fuel + 1, retryCount, delay =>
    match op retryCount with
    | Except.ok v => ⟨Except.ok v, retryCount + 1, []⟩
    | Except.error e =>
      if feedTransient e ∧ retryCount < maxRetries then
        let nextDelay := min (delay * 2) maxRetryDelay
        let rest := feedRetryGo op maxRetries maxRetryDelay fuel (retryCount + 1) nextDelay
        ⟨rest.result, rest.calls, nextDelay :: rest.delays⟩
      else ⟨Except.error (some e), retryCount + 1, []⟩

/-- Embeds a top-level call of feed2llm's `withRetry(operation)` with the
default state `retryCount = 0`, `delay = DEFAULTS.retryDelay`. -/
def feedRetry (op : Nat → Except JsError α) (maxRetries : Nat)
    (maxRetryDelay d0 : ℚ) : RetryTrace α :=
  feedRetryGo op maxRetries maxRetryDelay (maxRetries + 1) 0 d0

/-- The defaults of feed2llm: retryDelay 1000, maxRetryDelay 60000, maxRetries 5. -/
def feedDefaults : Nat × ℚ × ℚ := (5, 60000, 1000)

theorem nuggetRetryGo_ok (op : Nat → Except JsError α) (d0 : ℚ) (jitter : Nat → ℚ)
    (N : Nat) : ∀ (k attempt : Nat) (v : α),
    attempt + k < N →
    (∀ i, attempt ≤ i → i < attempt + k → ∃ e, op i = Except.error e ∧ nuggetTransient e = true) →
    op (attempt + k) = Except.ok v →
    (nuggetRetryGo op d0 jitter N attempt (N - attempt)).result = Except.ok v ∧
    (nuggetRetryGo op d0 jitter N attempt (N - attempt)).calls = attempt + k + 1 := by
  intro k
  induction k with
  | zero =>
    intro attempt v hlt _ hok
    obtain ⟨fuel, hf⟩ : ∃ f, N - attempt = f + 1 := ⟨N - attempt - 1, by omega⟩
    rw [hf]
    simp only [Nat.add_zero] at hok
    simp [nuggetRetryGo, hok]
  | succ k ih =>
    intro attempt v hlt hfail hok
    obtain ⟨fuel, hf⟩ : ∃ f, N - attempt = f + 1 := ⟨N - attempt - 1, by omega⟩
    rw [hf]
    obtain ⟨e, he, het⟩ := hfail attempt (Nat.le_refl _) (by omega)
    have hne : ¬ (attempt + 1 = N) := by omega
    have hfuel : fuel = N - (attempt + 1) := by omega
    have ih2 := ih (attempt + 1) v (by omega)
      (fun i h1 h2 => hfail i (by omega) (by omega)) (by rw [show attempt + 1 + k = attempt + (k+1) by omega]; exact hok)
    rw [← hfuel] at ih2
    simp only [nuggetRetryGo, he, het, if_true, hne, if_false]
    refine ⟨ih2.1, by rw [ih2.2]; omega⟩

theorem nuggetRetryGo_allFail (op : Nat → Except JsError α) (d0 : ℚ) (jitter : Nat → ℚ)
    (N : Nat) (hall : ∀ i, ∃ e, op i = Except.error e ∧ nuggetTransient e = true) :
    ∀ (fuel attempt : Nat), fuel = N - attempt → attempt < N →
    (nuggetRetryGo op d0 jitter N attempt fuel).calls = N ∧
    ∃ e, op (N - 1) = Except.error e ∧
      (nuggetRetryGo op d0 jitter N attempt fuel).result = Except.error (some e) := by
  intro fuel
  induction fuel with
  | zero => intro attempt hf ha; omega
  | succ fuel ih =>
    intro attempt hf ha
    obtain ⟨e, he, het⟩ := hall attempt
    by_cases hlast : attempt + 1 = N
    · subst hlast
      simp [nuggetRetryGo, he, het]
    · have hrec := ih (attempt + 1) (by omega) (by omega)
      simp only [nuggetRetryGo, he, het, if_true, hlast, if_false]
      exact hrec

theorem nuggetRetryGo_calls_le (op : Nat → Except JsError α) (d0 : ℚ) (jitter : Nat → ℚ)
    (N : Nat) : ∀ (fuel attempt : Nat),
    (nuggetRetryGo op d0 jitter N attempt fuel).calls ≤ attempt + fuel := by
  intro fuel
  induction fuel with
  | zero => intro attempt; simp [nuggetRetryGo]
  | succ fuel ih =>
    intro attempt
    rcases hop : op attempt with e | v
    · by_cases ht : nuggetTransient e
      · by_cases hlast : attempt + 1 = N
        · simp only [nuggetRetryGo, hop, ht, if_true, hlast]
          omega
        · have := ih (attempt + 1)
          simp only [nuggetRetryGo, hop, ht, if_true, hlast, if_false]
          omega
      · simp only [nuggetRetryGo, hop, ht, Bool.false_eq_true, if_false]
        omega
    · simp only [nuggetRetryGo, hop]
      omega

theorem nuggetRetryGo_calls_ge (op : Nat → Except JsError α) (d0 : ℚ) (jitter : Nat → ℚ)
    (N : Nat) : ∀ (fuel attempt : Nat), 1 ≤ fuel →
    attempt + 1 ≤ (nuggetRetryGo op d0 jitter N attempt fuel).calls := by
  intro fuel
  induction fuel with
  | zero => intro attempt h; omega
  | succ fuel ih =>
    intro attempt _
    rcases hop : op attempt with e | v
    · by_cases ht : nuggetTransient e
      · by_cases hlast : attempt + 1 = N
        · simp only [nuggetRetryGo, hop, ht, if_true, hlast]
          omega
        · rcases Nat.eq_zero_or_pos fuel with hz | hp
          · subst hz
            simp only [nuggetRetryGo, hop, ht, if_true, hlast, if_false]
            omega
          · have := ih (attempt + 1) hp
            simp only [nuggetRetryGo, hop, ht, if_true, hlast, if_false]
            omega
      · simp only [nuggetRetryGo, hop, ht, Bool.false_eq_true, if_false]
        omega
    · simp only [nuggetRetryGo, hop]
      omega

theorem nuggetRetryGo_delays (op : Nat → Except JsError α) (d0 : ℚ) (jitter : Nat → ℚ)
    (N : Nat) : ∀ (fuel attempt : Nat), fuel = N - attempt →
    (nuggetRetryGo op d0 jitter N attempt fuel).delays =
      (List.range' attempt ((nuggetRetryGo op d0 jitter N attempt fuel).calls - 1 - attempt)).map
        (fun a => d0 * 2 ^ a * jitter a) := by
  intro fuel
  induction fuel with
  | zero =>
    intro attempt _
    have h0 : attempt - 1 - attempt = 0 := by omega
    simp [nuggetRetryGo, h0]
  | succ fuel ih =>
    intro attempt hf
    have h1 : attempt + 1 - 1 - attempt = 0 := by omega
    rcases hop : op attempt with e | v
    · by_cases ht : nuggetTransient e
      · by_cases hlast : attempt + 1 = N
        · simp [nuggetRetryGo, hop, ht, hlast, h1]
        · have hfuel : fuel = N - (attempt + 1) := by omega
          have hge := nuggetRetryGo_calls_ge op d0 jitter N fuel (attempt + 1) (by omega)
          have hrec := ih (attempt + 1) hfuel
          simp only [nuggetRetryGo, hop, ht, if_true, hlast, if_false]
          set c := (nuggetRetryGo op d0 jitter N (attempt + 1) fuel).calls with hc
          have hrange : c - 1 - attempt = (c - 1 - (attempt + 1)) + 1 := by omega
          rw [hrec, hrange, List.range'_succ]
          simp
      · simp [nuggetRetryGo, hop, ht, h1]
    · simp [nuggetRetryGo, hop, h1]

theorem feedRetryGo_ok (op : Nat → Except JsError α) (N : Nat) (C : ℚ) :
    ∀ (k fuel rc : Nat) (delay : ℚ) (v : α),
    k < fuel →
    rc + k ≤ N →
    (∀ i, rc ≤ i → i < rc + k → ∃ e, op i = Except.error e ∧ feedTransient e = true) →
    op (rc + k) = Except.ok v →
    (feedRetryGo op N C fuel rc delay).result = Except.ok v ∧
    (feedRetryGo op N C fuel rc delay).calls = rc + k + 1 := by
  intro k
  induction k with
  | zero =>
    intro fuel rc delay v hk _ _ hok
    obtain ⟨f, hf⟩ : ∃ f, fuel = f + 1 := ⟨fuel - 1, by omega⟩
    subst hf
    simp only [Nat.add_zero] at hok
    simp [feedRetryGo, hok]
  | succ k ih =>
    intro fuel rc delay v hk hle hfail hok
    obtain ⟨f, hf⟩ : ∃ f, fuel = f + 1 := ⟨fuel - 1, by omega⟩
    subst hf
    obtain ⟨e, he, het⟩ := hfail rc (Nat.le_refl _) (by omega)
    have hcond : feedTransient e = true ∧ rc < N := ⟨het, by omega⟩
    have ih2 := ih f (rc + 1) (min (delay * 2) C) v (by omega) (by omega)
      (fun i h1 h2 => hfail i (by omega) (by omega))
      (by rw [show rc + 1 + k = rc + (k+1) by omega]; exact hok)
    simp only [feedRetryGo, he, if_pos hcond]
    exact ⟨ih2.1, by rw [ih2.2]; omega⟩

theorem feedRetryGo_allFail (op : Nat → Except JsError α) (N : Nat) (C : ℚ)
    (hall : ∀ i, ∃ e, op i = Except.error e ∧ feedTransient e = true) :
    ∀ (fuel rc : Nat) (delay : ℚ), fuel = N - rc + 1 → rc ≤ N →
    (feedRetryGo op N C fuel rc delay).calls = N + 1 ∧
    ∃ e, op N = Except.error e ∧
      (feedRetryGo op N C fuel rc delay).result = Except.error (some e) := by
  intro fuel
  induction fuel with
  | zero => intro rc delay hf _; omega
  | succ fuel ih =>
    intro rc delay hf hrc
    obtain ⟨e, he, het⟩ := hall rc
    by_cases hlast : rc = N
    · have hcond : ¬ (feedTransient e = true ∧ rc < N) := by
        rintro ⟨_, h⟩; omega
      simp only [feedRetryGo, he, if_neg hcond]
      exact ⟨by omega, e, by rw [← hlast]; exact ⟨he, rfl⟩⟩
    · have hcond : feedTransient e = true ∧ rc < N := ⟨het, by omega⟩
      have := ih (rc + 1) (min (delay * 2) C) (by omega) (by omega)
      simp only [feedRetryGo, he, if_pos hcond]
      exact this

theorem feedRetryGo_calls_le (op : Nat → Except JsError α) (N : Nat) (C : ℚ) :
    ∀ (fuel rc : Nat) (delay : ℚ),
    (feedRetryGo op N C fuel rc delay).calls ≤ rc + fuel := by
  intro fuel
  induction fuel with
  | zero => intro rc delay; simp [feedRetryGo]
  | succ fuel ih =>
    intro rc delay
    rcases hop : op rc with e | v
    · by_cases hcond : feedTransient e = true ∧ rc < N
      · have := ih (rc + 1) (min (delay * 2) C)
        simp only [feedRetryGo, hop, if_pos hcond]
        omega
      · simp only [feedRetryGo, hop, if_neg hcond]
        omega
    · simp only [feedRetryGo, hop]
      omega

theorem feedRetryGo_delays_mono (op : Nat → Except JsError α) (N : Nat) (C : ℚ) :
    ∀ (fuel rc : Nat) (delay : ℚ), 0 ≤ delay → delay ≤ C →
    List.Chain' (· ≤ ·) (delay :: (feedRetryGo op N C fuel rc delay).delays) ∧
    ∀ d ∈ (feedRetryGo op N C fuel rc delay).delays, d ≤ C := by
  intro fuel
  induction fuel with
  | zero => intro rc delay _ _; simp [feedRetryGo]
  | succ fuel ih =>
    intro rc delay h0 hC
    rcases hop : op rc with e | v
    · by_cases hcond : feedTransient e = true ∧ rc < N
      · have hnext0 : (0 : ℚ) ≤ min (delay * 2) C := le_min (by linarith) (le_trans h0 hC)
        have hnextC : min (delay * 2) C ≤ C := min_le_right _ _
        have hstep : delay ≤ min (delay * 2) C := le_min (by linarith) hC
        have hrec := ih (rc + 1) (min (delay * 2) C) hnext0 hnextC
        simp only [feedRetryGo, hop, if_pos hcond]
        constructor
        · exact List.chain'_cons.mpr ⟨hstep, hrec.1⟩
        · intro d hd
          rcases List.mem_cons.mp hd with h | h
          · rw [h]; exact hnextC
          · exact hrec.2 d h
      · simp [feedRetryGo, hop, if_neg hcond]
    · simp [feedRetryGo, hop]

/-- Operation used in the C1 counterexample: every invocation fails with
HTTP status 429, which nugget's guard classifies as transient. -/
def c1op : Nat → Except JsError Unit := fun _ => Except.error ⟨some 429, "rate limited"⟩

/-- Claim C1, counterexample: with nugget's `withRetry` at `maxRetries = 2`
and an operation that always fails transiently (status 429), the
operation is invoked exactly 2 times, not the 2 + 1 times the claim
asserts — nugget's loop bound `attempt < maxRetries` counts total
attempts, not retries after the first attempt. -/
theorem c1_cex_nugget_always_transient :
    (nuggetRetry c1op 1000 (fun _ => 1) 2).calls = 2 ∧
    ¬ (nuggetRetry c1op 1000 (fun _ => 1) 2).calls = 2 + 1 := by
  constructor <;> decide

/-- Claim C1 (amended): for an operation failing transiently exactly M
times (M < N) then succeeding, both guards return the success value with
exactly M+1 invocations; for an always-transiently-failing operation,
nugget's guard (maxRetries = N ≥ 1) invokes it exactly N times — not
N+1 — and feed2llm's guard (DEFAULTS.maxRetries = N) exactly N+1 times,
the final error propagating in both; a non-transient first failure
propagates after exactly one invocation in both. -/
theorem c1_retry_invocation_counts :
    (∀ (α : Type) (op : Nat → Except JsError α) (d0 : ℚ) (jit : Nat → ℚ) (N M : Nat) (v : α),
      M < N →
      (∀ i, i < M → ∃ e, op i = Except.error e ∧ nuggetTransient e = true) →
      op M = Except.ok v →
      (nuggetRetry op d0 jit N).result = Except.ok v ∧
      (nuggetRetry op d0 jit N).calls = M + 1) ∧
    (∀ (α : Type) (op : Nat → Except JsError α) (d0 : ℚ) (jit : Nat → ℚ) (N : Nat),
      1 ≤ N →
      (∀ i, ∃ e, op i = Except.error e ∧ nuggetTransient e = true) →
      (nuggetRetry op d0 jit N).calls = N ∧
      ∃ e, op (N - 1) = Except.error e ∧
        (nuggetRetry op d0 jit N).result = Except.error (some e)) ∧
    (∀ (α : Type) (op : Nat → Except JsError α) (d0 : ℚ) (jit : Nat → ℚ) (N : Nat) (e : JsError),
      1 ≤ N → op 0 = Except.error e → nuggetTransient e = false →
      (nuggetRetry op d0 jit N).result = Except.error (some e) ∧
      (nuggetRetry op d0 jit N).calls = 1) ∧
    (∀ (α : Type) (op : Nat → Except JsError α) (N : Nat) (C d0 : ℚ) (M : Nat) (v : α),
      M < N →
      (∀ i, i < M → ∃ e, op i = Except.error e ∧ feedTransient e = true) →
      op M = Except.ok v →
      (feedRetry op N C d0).result = Except.ok v ∧
      (feedRetry op N C d0).calls = M + 1) ∧
    (∀ (α : Type) (op : Nat → Except JsError α) (N : Nat) (C d0 : ℚ),
      (∀ i, ∃ e, op i = Except.error e ∧ feedTransient e = true) →
      (feedRetry op N C d0).calls = N + 1 ∧
      ∃ e, op N = Except.error e ∧
        (feedRetry op N C d0).result = Except.error (some e)) ∧
    (∀ (α : Type) (op : Nat → Except JsError α) (N : Nat) (C d0 : ℚ) (e : JsError),
      op 0 = Except.error e → feedTransient e = false →
      (feedRetry op N C d0).result = Except.error (some e) ∧
      (feedRetry op N C d0).calls = 1) := by
  refine ⟨?_, ?_, ?_, ?_, ?_, ?_⟩
  · intro α op d0 jit N M v hM hfail hok
    have h := nuggetRetryGo_ok op d0 jit N M 0 v (by omega)
      (fun i _ h2 => hfail i (by omega)) (by simpa using hok)
    simpa [nuggetRetry] using h
  · intro α op d0 jit N hN hall
    have h := nuggetRetryGo_allFail op d0 jit N hall N 0 (by omega) (by omega)
    simpa [nuggetRetry] using h
  · intro α op d0 jit N e hN hop ht
    obtain ⟨f, hf⟩ : ∃ f, N = f + 1 := ⟨N - 1, by omega⟩
    subst hf
    simp [nuggetRetry, nuggetRetryGo, hop, ht]
  · intro α op N C d0 M v hM hfail hok
    have h := feedRetryGo_ok op N C M (N + 1) 0 d0 v (by omega) (by omega)
      (fun i _ h2 => hfail i (by omega)) (by simpa using hok)
    simpa [feedRetry] using h
  · intro α op N C d0 hall
    have h := feedRetryGo_allFail op N C hall (N + 1) 0 d0 (by omega) (by omega)
    simpa [feedRetry] using h
  · intro α op N C d0 e hop ht
    have hcond : ¬ (feedTransient e = true ∧ 0 < N) := by
      rintro ⟨h1, _⟩; rw [ht] at h1; exact Bool.false_ne_true h1
    simp [feedRetry, feedRetryGo, hop, if_neg hcond]

/-- Claim C1 witness: a concrete instance with one transient failure then
success (invoked twice), an always-transient operation under each guard
(nugget: 2 calls at N = 2; feed2llm: 3 calls at N = 2), and a permanent
failure (one call). -/
theorem c1_witness :
    ((nuggetRetry (fun i => if i = 0 then Except.error ⟨some 429, ""⟩ else Except.ok 7)
        1000 (fun _ => 1) 2).result = Except.ok 7 ∧
     (nuggetRetry (fun i => if i = 0 then Except.error ⟨some 429, ""⟩ else Except.ok 7)
        1000 (fun _ => 1) 2).calls = 2) ∧
    ((nuggetRetry (fun _ => Except.error ⟨some 503, ""⟩ : Nat → Except JsError Nat)
        1000 (fun _ => 1) 2).calls = 2) ∧
    ((nuggetRetry (fun _ => Except.error ⟨some 404, ""⟩ : Nat → Except JsError Nat)
        1000 (fun _ => 1) 3).result = Except.error (some ⟨some 404, ""⟩) ∧
     (nuggetRetry (fun _ => Except.error ⟨some 404, ""⟩ : Nat → Except JsError Nat)
        1000 (fun _ => 1) 3).calls = 1) ∧
    ((feedRetry (fun i => if i = 0 then Except.error ⟨none, "rate_limit_error"⟩ else Except.ok 7)
        2 60000 1000).result = Except.ok 7 ∧
     (feedRetry (fun i => if i = 0 then Except.error ⟨none, "rate_limit_error"⟩ else Except.ok 7)
        2 60000 1000).calls = 2) ∧
    ((feedRetry (fun _ => Except.error ⟨none, "rate_limit_error"⟩ : Nat → Except JsError Nat)
        2 60000 1000).calls = 2 + 1) ∧
    ((feedRetry (fun _ => Except.error ⟨none, "boom"⟩ : Nat → Except JsError Nat)
        2 60000 1000).result = Except.error (some ⟨none, "boom"⟩) ∧
     (feedRetry (fun _ => Except.error ⟨none, "boom"⟩ : Nat → Except JsError Nat)
        2 60000 1000).calls = 1) := by
  refine ⟨?_, ?_, ?_, ?_, ?_, ?_⟩
  · exact c1_retry_invocation_counts.1 Nat _ 1000 (fun _ => 1) 2 1 7 (by decide)
      (fun i hi => ⟨⟨some 429, ""⟩, by interval_cases i <;> exact ⟨rfl, by decide⟩⟩)
      rfl
  · exact (c1_retry_invocation_counts.2.1 Nat _ 1000 (fun _ => 1) 2 (by decide)
      (fun i => ⟨⟨some 503, ""⟩, rfl, by decide⟩)).1
  · exact c1_retry_invocation_counts.2.2.1 Nat _ 1000 (fun _ => 1) 3 ⟨some 404, ""⟩
      (by decide) rfl (by decide)
  · exact c1_retry_invocation_counts.2.2.2.1 Nat _ 2 60000 1000 1 7 (by decide)
      (fun i hi => ⟨⟨none, "rate_limit_error"⟩, by interval_cases i <;> exact ⟨rfl, by decide⟩⟩)
      rfl
  · exact (c1_retry_invocation_counts.2.2.2.2.1 Nat _ 2 60000 1000
      (fun i => ⟨⟨none, "rate_limit_error"⟩, rfl, by decide⟩)).1
  · exact c1_retry_invocation_counts.2.2.2.2.2 Nat _ 2 60000 1000 ⟨none, "boom"⟩
      rfl (by decide)

/-- Jitter draws used in the C6 counterexample: attempt 0 draws
`0.5 + 0.9 = 1.4`, every later attempt draws `0.5 + 0 = 0.5`; both lie in
the band `[0.5, 1.5)` that `0.5 + Math.random()` can produce. -/
def c6jitter : Nat → ℚ := fun a => if a = 0 then 7 / 5 else 1 / 2

/-- Operation used in the C6 counterexample: always fails with HTTP 503. -/
def c6op : Nat → Except JsError Unit := fun _ => Except.error ⟨some 503, "overloaded"⟩

theorem c6jitter_in_band : ∀ a, 1 / 2 ≤ c6jitter a ∧ c6jitter a < 3 / 2 := by
  intro a
  unfold c6jitter
  by_cases h : a = 0 <;> simp [h] <;> norm_num

/-- Claim C6, counterexample: nugget's delay is
`initialDelay * 2^attempt * (0.5 + Math.random())`; with draws 1.4 then
0.5 (both possible values), `maxRetries = 3` and `initialDelay = 1000`
the waited delays are 1400ms then 1000ms — a strictly decreasing pair,
so the delay sequence of an execution is not always monotonically
non-decreasing (nugget also applies no ceiling to its delays). -/
theorem c6_cex_nugget_delays_decrease :
    (nuggetRetry c6op 1000 c6jitter 3).delays = [1400, 1000] ∧
    ¬ List.Chain' (· ≤ ·) ((nuggetRetry c6op 1000 c6jitter 3).delays) := by
  have h : (nuggetRetry c6op 1000 c6jitter 3).delays = [1400, 1000] := by
    norm_num [nuggetRetry, nuggetRetryGo, c6op, c6jitter, nuggetTransient]
  refine ⟨h, ?_⟩
  rw [h]
  simp only [List.chain'_cons, List.chain'_singleton, and_true]
  norm_num

/-- Claim C6 (amended): both guards make at most N+1 total attempts
(nugget in fact at most N); feed2llm's delay sequence is monotonically
non-decreasing and never exceeds the `maxRetryDelay` ceiling whenever the
initial delay lies in `[0, maxRetryDelay]`; nugget's delay before retry
a+1 is exactly `initialDelay * 2^a * jitter(a)` with a fresh random
jitter factor per attempt, so its delays need not be non-decreasing and
are not capped. -/
theorem c6_retry_attempts_and_backoff :
    (∀ (α : Type) (op : Nat → Except JsError α) (d0 : ℚ) (jit : Nat → ℚ) (N : Nat),
      (nuggetRetry op d0 jit N).calls ≤ N ∧ (nuggetRetry op d0 jit N).calls ≤ N + 1) ∧
    (∀ (α : Type) (op : Nat → Except JsError α) (N : Nat) (C d0 : ℚ),
      (feedRetry op N C d0).calls ≤ N + 1) ∧
    (∀ (α : Type) (op : Nat → Except JsError α) (N : Nat) (C d0 : ℚ),
      0 ≤ d0 → d0 ≤ C →
      List.Chain' (· ≤ ·) ((feedRetry op N C d0).delays) ∧
      ∀ d ∈ (feedRetry op N C d0).delays, d ≤ C) ∧
    (∀ (α : Type) (op : Nat → Except JsError α) (d0 : ℚ) (jit : Nat → ℚ) (N : Nat),
      (nuggetRetry op d0 jit N).delays =
        (List.range ((nuggetRetry op d0 jit N).calls - 1)).map
          (fun a => d0 * 2 ^ a * jit a)) := by
  refine ⟨?_, ?_, ?_, ?_⟩
  · intro α op d0 jit N
    have h := nuggetRetryGo_calls_le op d0 jit N N 0
    constructor
    · simpa [nuggetRetry] using h
    · have : (nuggetRetry op d0 jit N).calls ≤ N := by simpa [nuggetRetry] using h
      omega
  · intro α op N C d0
    have h := feedRetryGo_calls_le op N C (N + 1) 0 d0
    simpa [feedRetry] using h
  · intro α op N C d0 h0 hC
    have h := feedRetryGo_delays_mono op N C (N + 1) 0 d0 h0 hC
    exact ⟨(List.chain'_cons'.mp h.1).2, h.2⟩
  · intro α op d0 jit N
    have h := nuggetRetryGo_delays op d0 jit N N 0 (by omega)
    simpa [nuggetRetry, List.range_eq_range'] using h

/-- Claim C6 witness: the attempt bounds and the feed2llm backoff
properties instantiated at feed2llm's defaults (N = 5, base delay 1000ms,
ceiling 60000ms) with an always-transient operation. -/
theorem c6_witness :
    ((nuggetRetry (fun _ => Except.error ⟨some 429, ""⟩ : Nat → Except JsError Nat)
        1000 (fun _ => 1) 5).calls ≤ 5 + 1) ∧
    ((feedRetry (fun _ => Except.error ⟨none, "rate_limit_error"⟩ : Nat → Except JsError Nat)
        5 60000 1000).calls ≤ 5 + 1) ∧
    (List.Chain' (· ≤ ·)
      ((feedRetry (fun _ => Except.error ⟨none, "rate_limit_error"⟩ : Nat → Except JsError Nat)
        5 60000 1000).delays) ∧
     ∀ d ∈ (feedRetry (fun _ => Except.error ⟨none, "rate_limit_error"⟩ : Nat → Except JsError Nat)
        5 60000 1000).delays, d ≤ 60000) := by
  refine ⟨?_, ?_, ?_⟩
  · exact (c6_retry_attempts_and_backoff.1 Nat _ 1000 (fun _ => 1) 5).2
  · exact c6_retry_attempts_and_backoff.2.1 Nat _ 5 60000 1000
  · exact c6_retry_attempts_and_backoff.2.2.1 Nat _ 5 60000 1000 (by norm_num) (by norm_num)

/-! ## Bounded-concurrency mapper

The batch tools (`src/unnamed/part_007` lines 284-292 and 802-808) run
`filePaths.map((filepath, index) => limit(() => processFile(...)))`
followed by `Promise.all(tasks)`, where `limit = pLimit(K)`.  The
embedding models the documented queue semantics of `p-limit` together
with the index-preserving join of `Promise.all`: every task is enqueued
in input order, at most K tasks are in flight, a completing task
immediately dequeues the next pending task, and each task records its
outcome at its own input index.  The completion order is an arbitrary
choice sequence, so the theorems quantify over every interleaving.
`out i` is the TransformOutcome of the i-th input item. -/

structure MapperState (β : Type) where
  queue : List Nat
  running : List Nat
  results : Nat → Option β

/-- Initial state of the mapper for `n` items and concurrency limit `K`:
the first `min K n` tasks start immediately, the rest queue in input
order; no outcome is recorded yet. -/
def initMapper (β : Type) (n K : Nat) : MapperState β :=
  ⟨(List.range n).drop K, (List.range n).take K, fun _ => none⟩

/-- One scheduler step: the in-flight task `c` completes, its outcome is
recorded at index `c`, and the head of the queue (if any) starts in the
freed slot.  A choice that names no in-flight task changes nothing. -/
def stepMapper (out : Nat → β) (s : MapperState β) (c : Nat) : MapperState β :=
  if c ∈ s.running then
    { queue := s.queue.drop 1
      running := s.running.erase c ++ s.queue.take 1
      results := Function.update s.results c (some (out c)) }
  else s

/-- Runs the mapper under a given completion-choice sequence. -/
def runMapper (out : Nat → β) (s : MapperState β) : List Nat → MapperState β
  | [] => s
  | c :: cs => runMapper out (stepMapper out s c) cs

/-- Invariant of every reachable mapper state: pending indices (queued or
in flight) are distinct, below `n`, and unrecorded; indices no longer
pending are recorded with their own outcome; at most `K` tasks run, and
exactly `K` whenever the queue is nonempty. -/
def MapperInv (out : Nat → β) (n K : Nat) (s : MapperState β) : Prop :=
  (s.queue ++ s.running).Nodup ∧
  (∀ i ∈ s.queue ++ s.running, i < n) ∧
  (∀ i ∈ s.queue ++ s.running, s.results i = none) ∧
  (∀ i < n, i ∉ s.queue ++ s.running → s.results i = some (out i)) ∧
  s.running.length ≤ K ∧
  (s.queue ≠ [] → s.running.length = K)

theorem mapperInv_init (out : Nat → β) (n K : Nat) :
    MapperInv out n K (initMapper β n K) := by
  have hperm : ((List.range n).drop K ++ (List.range n).take K).Perm (List.range n) := by
    have h := @List.perm_append_comm _ ((List.range n).drop K) ((List.range n).take K)
    rwa [List.take_append_drop] at h
  refine ⟨?_, ?_, ?_, ?_, ?_, ?_⟩
  · exact hperm.symm.nodup (List.nodup_range n)
  · intro i hi
    exact List.mem_range.mp (hperm.mem_iff.mp hi)
  · intro i _
    rfl
  · intro i hi hmem
    exact absurd (hperm.mem_iff.mpr (List.mem_range.mpr hi)) hmem
  · simpa [initMapper] using Nat.min_le_left K n
  · intro hq
    have hKn : K < n := by
      by_contra hKn
      exact hq (List.drop_eq_nil_iff.mpr (by simp; omega))
    simp [initMapper, List.length_take, List.length_range]
    omega

theorem mapperInv_step (out : Nat → β) (n K : Nat) (s : MapperState β) (c : Nat)
    (h : MapperInv out n K s) : MapperInv out n K (stepMapper out s c) := by
  obtain ⟨hnd, hlt, hnone, hdone, hle, hfull⟩ := h
  by_cases hc : c ∈ s.running
  · have hstep : stepMapper out s c =
        ⟨s.queue.drop 1, s.running.erase c ++ s.queue.take 1,
         Function.update s.results c (some (out c))⟩ := by
      unfold stepMapper
      rw [if_pos hc]
    rw [hstep]
    have hcq : c ∉ s.queue := fun hq => (List.disjoint_of_nodup_append hnd) hq hc
    have hkey : (s.queue.drop 1 ++ (s.running.erase c ++ s.queue.take 1)).Perm
        ((s.queue ++ s.running).erase c) := by
      have e1 : (s.queue.drop 1 ++ (s.running.erase c ++ s.queue.take 1)).Perm
          (s.running.erase c ++ s.queue) := by
        have h0 := @List.perm_append_comm _ (s.queue.drop 1)
            (s.running.erase c ++ s.queue.take 1)
        rwa [List.append_assoc, List.take_append_drop] at h0
      have e2 : (s.running.erase c ++ s.queue).Perm (s.queue ++ s.running.erase c) :=
        List.perm_append_comm
      have e3 := e1.trans e2
      rwa [← List.erase_append_right s.running hcq] at e3
    have hndE : ((s.queue ++ s.running).erase c).Nodup := hnd.erase c
    have hmemE : ∀ i, i ∈ (s.queue ++ s.running).erase c ↔
        i ≠ c ∧ i ∈ s.queue ++ s.running := fun i => hnd.mem_erase_iff
    refine ⟨hkey.symm.nodup hndE, ?_, ?_, ?_, ?_, ?_⟩
    · intro i hi
      exact hlt i ((hmemE i).mp (hkey.mem_iff.mp hi)).2
    · intro i hi
      obtain ⟨hne, hmem⟩ := (hmemE i).mp (hkey.mem_iff.mp hi)
      show Function.update s.results c (some (out c)) i = none
      rw [Function.update_noteq hne]
      exact hnone i hmem
    · intro i hi hmem
      by_cases hic : i = c
      · subst hic
        show Function.update s.results i (some (out i)) i = some (out i)
        rw [Function.update_same]
      · have hnotold : i ∉ s.queue ++ s.running := fun habs =>
          hmem (hkey.mem_iff.mpr ((hmemE i).mpr ⟨hic, habs⟩))
        show Function.update s.results c (some (out c)) i = some (out i)
        rw [Function.update_noteq hic]
        exact hdone i hi hnotold
    · rcases hq : s.queue with _ | ⟨q, qs⟩
      · have hsub := (List.erase_sublist c s.running).length_le
        simp only [hq, List.drop_nil, List.take_nil, List.append_nil]
        exact Nat.le_trans hsub hle
      · have hlen : (s.running.erase c).length = s.running.length - 1 :=
          List.length_erase_of_mem hc
        have h1 : s.running.length = K := hfull (by simp [hq])
        have h2 : 1 ≤ s.running.length := List.length_pos.mpr (List.ne_nil_of_mem hc)
        simp only [List.length_append, hlen, hq, List.length_take]
        simp
        omega
    · intro hq2
      rcases hq : s.queue with _ | ⟨q, qs⟩
      · rw [hq] at hq2
        simp at hq2
      · have hlen : (s.running.erase c).length = s.running.length - 1 :=
          List.length_erase_of_mem hc
        have h1 : s.running.length = K := hfull (by simp [hq])
        have h2 : 1 ≤ s.running.length := List.length_pos.mpr (List.ne_nil_of_mem hc)
        simp only [List.length_append, hlen, hq, List.length_take]
        simp
        omega
  · have hstep : stepMapper out s c = s := by
      unfold stepMapper
      rw [if_neg hc]
    rw [hstep]
    exact ⟨hnd, hlt, hnone, hdone, hle, hfull⟩

theorem mapperInv_run (out : Nat → β) (n K : Nat) :
    ∀ (cs : List Nat) (s : MapperState β), MapperInv out n K s →
    MapperInv out n K (runMapper out s cs) := by
  intro cs
  induction cs with
  | nil => intro s h; exact h
  | cons c cs ih => intro s h; exact ih _ (mapperInv_step out n K s c h)

/-- Claim C2: for every input length, every concurrency limit K ≥ 1 and
every completion interleaving that drains the mapper, the mapper yields
exactly one recorded outcome per input item, and the i-th entry of the
result sequence is the outcome of the i-th input item — input order, not
completion order. -/
theorem c2_mapper_output_order (β : Type) (n K : Nat) (out : Nat → β) (cs : List Nat)
    (hK : 1 ≤ K)
    (hterm : (runMapper out (initMapper β n K) cs).running = []) :
    (List.range n).map (runMapper out (initMapper β n K) cs).results =
      (List.range n).map (fun i => some (out i)) := by
  have hinv := mapperInv_run out n K cs _ (mapperInv_init out n K)
  obtain ⟨hnd, hlt, hnone, hrec, hle, hfull⟩ := hinv
  have hq : (runMapper out (initMapper β n K) cs).queue = [] := by
    by_contra hq
    have hlen := hfull hq
    rw [hterm] at hlen
    simp at hlen
    omega
  apply List.map_congr_left
  intro i hi
  exact hrec i (List.mem_range.mp hi) (by simp [hq, hterm])

/-- Claim C2 witness: three items under concurrency 2, completing in the
order 0, 1, 2, record each item's outcome at its own index. -/
theorem c2_witness :
    1 ≤ 2 ∧
    (List.range 3).map (runMapper (fun i => i * 10) (initMapper Nat 3 2) [0, 1, 2]).results =
      (List.range 3).map (fun i => some (i * 10)) :=
  ⟨by decide, c2_mapper_output_order Nat 3 2 (fun i => i * 10) [0, 1, 2] (by decide) rfl⟩

/-- Claim C9: the mapper starts min(K, n) operations initially (the first
min(K, n) items, in input order); in every reachable state at most K
operations are in flight; and whenever an in-flight operation completes
while the queue is nonempty, the queue head starts in the same step, so
the number in flight does not drop. -/
theorem c9_mapper_concurrency_bound (β : Type) (n K : Nat) (out : Nat → β) :
    ((initMapper β n K).running = (List.range n).take K ∧
      (initMapper β n K).running.length = min K n) ∧
    (∀ cs : List Nat, (runMapper out (initMapper β n K) cs).running.length ≤ K) ∧
    (∀ (s : MapperState β) (c q : Nat) (qs : List Nat),
      MapperInv out n K s → c ∈ s.running → s.queue = q :: qs →
      (stepMapper out s c).running = s.running.erase c ++ [q] ∧
      (stepMapper out s c).queue = qs ∧
      (stepMapper out s c).running.length = s.running.length) := by
  refine ⟨⟨rfl, by simp [initMapper]⟩, ?_, ?_⟩
  · intro cs
    exact (mapperInv_run out n K cs _ (mapperInv_init out n K)).2.2.2.2.1
  · intro s c q qs hinv hc hq
    have hstep : stepMapper out s c =
        ⟨s.queue.drop 1, s.running.erase c ++ s.queue.take 1,
         Function.update s.results c (some (out c))⟩ := by
      unfold stepMapper
      rw [if_pos hc]
    have hlen : (s.running.erase c).length = s.running.length - 1 :=
      List.length_erase_of_mem hc
    have hpos : 1 ≤ s.running.length := List.length_pos.mpr (List.ne_nil_of_mem hc)
    refine ⟨?_, ?_, ?_⟩
    · rw [hstep]
      simp [hq]
    · rw [hstep]
      simp [hq]
    · rw [hstep]
      simp only [List.length_append, hlen, hq, List.length_take]
      simp
      omega

/-- Claim C9 witness: with three items and K = 2, items 0 and 1 start
immediately (2 = min(2,3) in flight); the bound holds along the
interleaving [1, 0, 2]; and when item 1 completes first, the queued item
2 starts in the same step keeping 2 operations in flight. -/
theorem c9_witness :
    ((initMapper Nat 3 2).running = (List.range 3).take 2 ∧
      (initMapper Nat 3 2).running.length = min 2 3) ∧
    ((runMapper (fun i => i * 10) (initMapper Nat 3 2) [1, 0, 2]).running.length ≤ 2) ∧
    ((stepMapper (fun i => i * 10) (initMapper Nat 3 2) 1).running =
        ((initMapper Nat 3 2) : MapperState Nat).running.erase 1 ++ [2] ∧
      (stepMapper (fun i => i * 10) (initMapper Nat 3 2) 1).queue = [] ∧
      (stepMapper (fun i => i * 10) (initMapper Nat 3 2) 1).running.length =
        ((initMapper Nat 3 2) : MapperState Nat).running.length) :=
  ⟨(c9_mapper_concurrency_bound Nat 3 2 (fun i => i * 10)).1,
   (c9_mapper_concurrency_bound Nat 3 2 (fun i => i * 10)).2.1 [1, 0, 2],
   (c9_mapper_concurrency_bound Nat 3 2 (fun i => i * 10)).2.2 (initMapper Nat 3 2) 1 2 []
     (mapperInv_init (fun i => i * 10) 3 2) (by decide) rfl⟩

/-! ## Paginated fetchers

`src/fireflies2md/index.js` lines 103-121 fetch pages by offset: each
request returns the items at positions `skip .. skip+PAGE_SIZE-1` of the
server's item sequence, and the loop stops on the first empty page.  The
server is modelled by the ordered item list it serves; one page request
at offset `skip` returns `(items.drop skip).take P`, exactly the
offset/skip contract of the claim.  `PAGE_SIZE = 50` in the tool; the
definition keeps it as a parameter `P ≥ 1`. -/

def pageAt (items : List α) (P skip : Nat) : List α :=
  (items.drop skip).take P

/-- Embeds the `while (hasMore)` loop of `fetchAllTranscripts`: request
the page at `skip`, stop if it is empty (`transcripts.length === 0`),
otherwise append it and advance `skip` by the page size.  Well-founded on
the items remaining past `skip`. -/
def fetchAllTranscripts (items : List α) (P : Nat) (hP : 0 < P) (skip : Nat) : List α :=
  if h : (pageAt items P skip).length = 0 then []
  else pageAt items P skip ++ fetchAllTranscripts items P hP (skip + P)
termination_by items.length - skip
decreasing_by
  have hlt : skip < items.length := by
    by_contra hge
    apply h
    simp [pageAt, List.drop_eq_nil_iff.mpr (show items.length ≤ skip by omega)]
  omega

theorem fetchAllTranscripts_eq_drop (items : List α) (P : Nat) (hP : 0 < P) :
    ∀ skip, fetchAllTranscripts items P hP skip = items.drop skip := by
  have H : ∀ m skip, items.length - skip = m →
      fetchAllTranscripts items P hP skip = items.drop skip := by
    intro m
    induction m using Nat.strong_induction_on with
    | _ m ih =>
      intro skip hm
      rw [fetchAllTranscripts]
      by_cases h : (pageAt items P skip).length = 0
      · rw [dif_pos h]
        have hnil : pageAt items P skip = [] := List.length_eq_zero.mp h
        unfold pageAt at hnil
        rcases List.take_eq_nil_iff.mp hnil with h1 | h1
        · omega
        · rw [List.drop_eq_nil_iff] at h1
          exact (List.drop_eq_nil_iff.mpr h1).symm
      · rw [dif_neg h]
        have hlt : skip < items.length := by
          by_contra hge
          apply h
          simp [pageAt, List.drop_eq_nil_iff.mpr (show items.length ≤ skip by omega)]
        have hrec := ih (items.length - (skip + P)) (by omega) (skip + P) rfl
        rw [hrec]
        show (items.drop skip).take P ++ items.drop (skip + P) = items.drop skip
        rw [← List.drop_drop, List.take_append_drop]
  intro skip
  exact H _ skip rfl

/-- One page of the Linear GraphQL issues connection: the nodes plus the
`pageInfo.hasNextPage` flag the loop reads (the `endCursor` only selects
the next page and needs no model of its own). -/
structure IssuePage (α : Type) where
  nodes : List α
  hasNextPage : Bool

/-- Embeds the `while (hasNextPage)` loop of `fetchProjectIssues`: the
server serves the given page sequence in order; the loop pushes each
page's nodes and continues while the page reports `hasNextPage`. -/
def fetchProjectIssues (pages : List (IssuePage α)) : List α :=
  match pages with
  | [] => []
  | p :: rest => p.nodes ++ (if p.hasNextPage then fetchProjectIssues rest else [])

/-- A well-formed page sequence: every page except the last reports
`hasNextPage = true` and the last reports `false`. -/
def WellPaged (pages : List (IssuePage α)) : Prop :=
  pages ≠ [] ∧
  (∀ i, i + 1 < pages.length → ∀ p, pages[i]? = some p → p.hasNextPage = true) ∧
  (∀ p, pages[pages.length - 1]? = some p → p.hasNextPage = false)

theorem fetchProjectIssues_join (pages : List (IssuePage α)) (hw : WellPaged pages) :
    fetchProjectIssues pages = (pages.map IssuePage.nodes).flatten := by
  obtain ⟨hne, hmid, hlast⟩ := hw
  induction pages with
  | nil => exact absurd rfl hne
  | cons p rest ih =>
    rcases hr : rest with _ | ⟨p2, rest2⟩
    · have hfalse : p.hasNextPage = false := by
        apply hlast
        simp [hr]
      simp [fetchProjectIssues, hfalse, hr]
    · have htrue : p.hasNextPage = true := by
        apply hmid 0
        · simp [hr]
        · simp
      rw [← hr]
      have hrec : fetchProjectIssues rest = (rest.map IssuePage.nodes).flatten := by
        apply ih
        · rw [hr]; simp
        · intro i hi q hq
          exact hmid (i + 1) (by simpa using hi) q (by simpa using hq)
        · intro q hq
          apply hlast
          have hlen : (p :: rest).length - 1 = (rest.length - 1) + 1 := by
            rw [hr]
            simp
          rw [hlen]
          simpa using hq
      simp [fetchProjectIssues, htrue, hrec]

/-- Claim C3: for every server item sequence and page size P ≥ 1, the
offset-paginated fetcher of fireflies2md terminates (it is a total
well-founded definition) and returns exactly the server's items in
server order — covering N = 0 (an empty first page yields the empty
sequence, not an error), N < P, N = P, N = kP and N = kP + r alike; and
linear2llm's cursor-paginated fetcher returns the concatenation of all
pages' nodes in order for every well-formed page sequence. -/
theorem c3_paginated_fetcher (α : Type) :
    (∀ (items : List α) (P : Nat) (hP : 0 < P),
      fetchAllTranscripts items P hP 0 = items) ∧
    (∀ pages : List (IssuePage α), WellPaged pages →
      fetchProjectIssues pages = (pages.map IssuePage.nodes).flatten) := by
  refine ⟨?_, ?_⟩
  · intro items P hP
    simpa using fetchAllTranscripts_eq_drop items P hP 0
  · intro pages hw
    exact fetchProjectIssues_join pages hw

/-- Claim C3 witness: five items at page size 2 (N = 2P + 1) are fetched
whole and in order by the offset fetcher, and a two-page cursor sequence
(sizes 2 then 1) is concatenated in order by the cursor fetcher. -/
theorem c3_witness :
    fetchAllTranscripts [1, 2, 3, 4, 5] 2 (by decide) 0 = [1, 2, 3, 4, 5] ∧
    WellPaged [IssuePage.mk ([1, 2] : List Nat) true, IssuePage.mk [3] false] ∧
    fetchProjectIssues [IssuePage.mk ([1, 2] : List Nat) true, IssuePage.mk [3] false] =
      (([IssuePage.mk ([1, 2] : List Nat) true, IssuePage.mk [3] false].map
        IssuePage.nodes)).flatten := by
  have hw : WellPaged [IssuePage.mk ([1, 2] : List Nat) true, IssuePage.mk [3] false] := by
    refine ⟨by simp, ?_, ?_⟩
    · intro i hi p hp
      simp at hi
      have h0 : i = 0 := by omega
      subst h0
      simp at hp
      rw [← hp]
    · intro p hp
      simp at hp
      rw [← hp]
  exact ⟨(c3_paginated_fetcher Nat).1 [1, 2, 3, 4, 5] 2 (by decide),
    hw, (c3_paginated_fetcher Nat).2 _ hw⟩

/-! ## Civil calendar and the JavaScript Date constructor

`src/unnamed/part_001` lines 5-18 validate a DD/MM/YY string by building
`new Date(2000 + year, month - 1, day)` and comparing the round trip.
The ECMAScript `MakeDay` used by that constructor normalizes an
arbitrary integer month (0-based) into the year and rolls an arbitrary
integer day over month boundaries.  The model uses the standard civil
calendar day-numbering (days since 1970-01-01, proleptic Gregorian),
with floor division throughout as the ECMAScript specification does. -/

def isLeap (y : Int) : Bool :=
  (y % 4 == 0 && y % 100 != 0) || y % 400 == 0

def daysInMonth (y : Int) (m : Int) : Int :=
  if m = 2 then (if isLeap y then 29 else 28)
  else if m = 4 ∨ m = 6 ∨ m = 9 ∨ m = 11 then 30
  else 31

/-- Day number (days since 1970-01-01) of the civil date y-m-d, month
1-based in 1..12. -/
def daysFromCivil (y m d : Int) : Int :=
  let y2 := if m ≤ 2 then y - 1 else y
  let era := Int.fdiv y2 400
  let yoe := y2 - era * 400
  let mp := Int.fmod (m + 9) 12
  let doy := Int.fdiv (153 * mp + 2) 5 + d - 1
  let doe := yoe * 365 + Int.fdiv yoe 4 - Int.fdiv yoe 100 + doy
  era * 146097 + doe - 719468

/-- Civil date (year, month 1-based, day) of a day number. -/
def civilFromDays (z : Int) : Int × Int × Int :=
  let z2 := z + 719468
  let era := Int.fdiv z2 146097
  let doe := z2 - era * 146097
  let yoe := Int.fdiv (doe - Int.fdiv doe 1460 + Int.fdiv doe 36524 - Int.fdiv doe 146096) 365
  let y := yoe + era * 400
  let doy := doe - (365 * yoe + Int.fdiv yoe 4 - Int.fdiv yoe 100)
  let mp := Int.fdiv (5 * doy + 2) 153
  let d := doy - Int.fdiv (153 * mp + 2) 5 + 1
  let m := if mp < 10 then mp + 3 else mp - 9
  (if m ≤ 2 then y + 1 else y, m, d)

/-- Embeds ECMAScript MakeDay as `new Date(year, month, day)` uses it:
`month` is 0-based and may lie outside 0..11 (it rolls into the year),
`day` may lie outside the month (it rolls over month boundaries). -/
def jsMakeDay (y m d : Int) : Int :=
  let ym := y * 12 + m
  daysFromCivil (Int.fdiv ym 12) (Int.fmod ym 12 + 1) 1 + (d - 1)

/-- The (getFullYear(), getMonth(), getDate()) observations of
`new Date(year, month, day)`; getMonth() is 0-based. -/
def jsDateYMD (y m d : Int) : Int × Int × Int :=
  let c := civilFromDays (jsMakeDay y m d)
  (c.1, c.2.1 - 1, c.2.2)

/-! ## The bank-statement date validator (isp2ynab converter) -/

/-- A JavaScript value as far as the validators inspect one: the
`number` payload is `none` for NaN. -/
inductive JsVal where
  | undef
  | null
  | boolean (b : Bool)
  | number (q : Option ℚ)
  | strVal (s : String)
deriving DecidableEq

def digitVal (c : Char) : Nat := c.toNat - 48

/-- Embeds the regex test `/^\d{2}\/\d{2}\/\d{2}$/.test(dateStr)`. -/
def matchesDDMMYY (s : String) : Bool :=
  match s.data with
  | [d1, d2, s1, m1, m2, s2, y1, y2] =>
    d1.isDigit && d2.isDigit && (s1 == '/') && m1.isDigit && m2.isDigit &&
      (s2 == '/') && y1.isDigit && y2.isDigit
  | _ => false

/-- Embeds the round trip of `isValidDate` on a shape-matching string:
split into day/month/year, build `new Date(2000 + year, month - 1, day)`
and compare `getDate()`, `getMonth() + 1` and `getFullYear() % 100`
against the parsed parts (the years produced here are positive, where
the ECMAScript remainder agrees with `Int.emod`). -/
def dateRoundTrips (s : String) : Bool :=
  match s.data with
  | [d1, d2, _, m1, m2, _, y1, y2] =>
    let day : Int := (digitVal d1 * 10 + digitVal d2 : Nat)
    let month : Int := (digitVal m1 * 10 + digitVal m2 : Nat)
    let year : Int := (digitVal y1 * 10 + digitVal y2 : Nat)
    let c := jsDateYMD (2000 + year) (month - 1) day
    (c.2.2 == day) && (c.2.1 + 1 == month) && (c.1 % 100 == year)
  | _ => false

/-- Embeds `isValidDate` of `src/unnamed/part_001`: a string of shape
DD/MM/YY whose parts survive the Date round trip; anything else — wrong
type or wrong shape — is false. -/
def isValidDate : JsVal → Bool
  | JsVal.strVal s => matchesDDMMYY s && dateRoundTrips s
  | _ => false

/-- Claim C4: the validator accepts 29/02/24 (2024 is a leap year) and
rejects 29/02/23 (2023 is not), 31/04/24 (April has 30 days) and
15/13/24 (month 13 rolls into the next year so the round trip fails);
non-string values and strings of the wrong shape yield false. -/
theorem c4_bank_date_validator :
    isValidDate (JsVal.strVal "29/02/24") = true ∧
    isValidDate (JsVal.strVal "29/02/23") = false ∧
    isValidDate (JsVal.strVal "31/04/24") = false ∧
    isValidDate (JsVal.strVal "15/13/24") = false ∧
    (∀ v : JsVal, (∀ s, v ≠ JsVal.strVal s) → isValidDate v = false) ∧
    (∀ s : String, matchesDDMMYY s = false → isValidDate (JsVal.strVal s) = false) := by
  refine ⟨by decide, by decide, by decide, by decide, ?_, ?_⟩
  · intro v hv
    cases v with
    | undef => rfl
    | null => rfl
    | boolean b => rfl
    | number q => rfl
    | strVal s => exact absurd rfl (hv s)
  · intro s hs
    simp [isValidDate, hs]

/-- Claim C4 witness: a number is not a string (rejected), and
"2024-01-01" does not match the DD/MM/YY shape (rejected). -/
theorem c4_witness :
    isValidDate (JsVal.number (some 5)) = false ∧
    matchesDDMMYY "2024-01-01" = false ∧
    isValidDate (JsVal.strVal "2024-01-01") = false := by
  refine ⟨?_, by decide, ?_⟩
  · exact c4_bank_date_validator.2.2.2.2.1 (JsVal.number (some 5))
      (fun s h => JsVal.noConfusion h)
  · exact c4_bank_date_validator.2.2.2.2.2 "2024-01-01" (by decide)

/-! ## Outflow normalization of the isp2ynab converter

`src/unnamed/part_001` lines 53-56 compute
`row[4] ? row[4].toString().replace('-', '') : ''` followed by
`.replace(/[€\s]/g, '')`: the first '-' is removed (a string pattern
replaces only the first occurrence) and every euro sign and whitespace
character is removed; nothing else is touched. -/

/-- Embeds `String.prototype.replace(pattern, '')` with a string
pattern: removes the first occurrence of `pat` only. -/
def jsReplaceFirstGo (cs pat : List Char) : List Char :=
  match cs with
  | [] => []
  | c :: t => if pat.isPrefixOf (c :: t) then (c :: t).drop pat.length
              else c :: jsReplaceFirstGo t pat

/-- The whitespace class of the JS regex `\s`. -/
def jsWhitespace (c : Char) : Bool :=
  c == ' ' || c == Char.ofNat 9 || c == Char.ofNat 10 || c == Char.ofNat 11 ||
  c == Char.ofNat 12 || c == Char.ofNat 13 || c == Char.ofNat 0xa0 ||
  c == Char.ofNat 0x1680 || (0x2000 ≤ c.toNat && c.toNat ≤ 0x200a) ||
  c == Char.ofNat 0x2028 || c == Char.ofNat 0x2029 || c == Char.ofNat 0x202f ||
  c == Char.ofNat 0x205f || c == Char.ofNat 0x3000 || c == Char.ofNat 0xfeff

/-- Embeds `.replace(/[€\s]/g, '')`. -/
def stripEuroWhitespace (cs : List Char) : List Char :=
  cs.filter (fun c => !(c == '€' || jsWhitespace c))

/-- Embeds the Outflow field computation of `processExcelBuffer`: a
falsy cell (absent or empty) yields the empty string, otherwise the
first '-' is removed and then all '€' and whitespace characters. -/
def transformOutflow (cell : Option String) : String :=
  match cell with
  | none => ""
  | some v =>
    if v = "" then ""
    else ⟨stripEuroWhitespace (jsReplaceFirstGo v.data ['-'])⟩

/-- Claim C7, counterexample: on the cell "-€1.234,56" the transform
yields "1.234,56" — the separators '.' and ',' are NOT stripped, so the
output is not a plain numeric string as the claim asserts. -/
theorem c7_cex_separators_remain :
    transformOutflow (some "-€1.234,56") = "1.234,56" ∧
    ¬ (∀ c ∈ (transformOutflow (some "-€1.234,56")).data, c.isDigit = true) := by
  constructor
  · decide
  · decide

/-- Claim C7 (amended): the transform removes the first '-' sign, every
'€' and every whitespace character, and preserves all other characters
including the '.' and ',' separators: "-€1.234,56" becomes "1.234,56". -/
theorem c7_outflow_normalization :
    transformOutflow (some "-€1.234,56") = "1.234,56" ∧
    ('.' ∈ (transformOutflow (some "-€1.234,56")).data ∧
     ',' ∈ (transformOutflow (some "-€1.234,56")).data ∧
     '-' ∉ (transformOutflow (some "-€1.234,56")).data ∧
     '€' ∉ (transformOutflow (some "-€1.234,56")).data) ∧
    (∀ s : String, ∀ c ∈ (transformOutflow (some s)).data,
      ¬ (c = '€' ∨ jsWhitespace c = true)) := by
  refine ⟨by decide, by decide, ?_⟩
  intro s c hc
  rw [show transformOutflow (some s) =
      if s = "" then "" else ⟨stripEuroWhitespace (jsReplaceFirstGo s.data ['-'])⟩ from rfl] at hc
  by_cases hs : s = ""
  · rw [if_pos hs] at hc
    simp [String.data] at hc
  · rw [if_neg hs] at hc
    have hmem : c ∈ stripEuroWhitespace (jsReplaceFirstGo s.data ['-']) := hc
    have hfil := List.of_mem_filter hmem
    intro habs
    rcases habs with h | h
    · subst h
      simp at hfil
    · rw [h] at hfil
      simp at hfil

/-- Claim C7 witness: instantiating the euro/whitespace-free guarantee
at the sample cell and the separator character '.' that remains. -/
theorem c7_witness :
    '.' ∈ (transformOutflow (some "-€1.234,56")).data ∧
    ¬ ('.' = '€' ∨ jsWhitespace '.' = true) :=
  ⟨by decide, c7_outflow_normalization.2.2 "-€1.234,56" '.' (by decide)⟩

/-! ## Date-range argument validation (fireflies2md, gh2md)

Both tools validate `--start`/`--end` with
`isValidDate = s => !isNaN(new Date(s))` and then exit 1 when
`endDate < startDate`, all before any network request is issued.
`new Date(string)` is modelled by the ECMAScript Date Time String
Format, restricted to the forms without zone offsets or fractional
seconds; the implementation-defined fallback parsing of other formats is
not modelled.  A no-offset date-time is placed on the UTC timeline: the
tools only compare the two parsed arguments with each other, so the
common fixed zone loses no generality. -/

/-- Parses the date production YYYY-MM-DD of the Date Time String
Format to a day number, including calendar validity (engines reject
e.g. 2024-02-30 as an invalid Date). -/
def parseDateLiteral (cs : List Char) : Option Int :=
  match cs with
  | [y1, y2, y3, y4, h1, m1, m2, h2, d1, d2] =>
    if y1.isDigit && y2.isDigit && y3.isDigit && y4.isDigit && (h1 == '-') &&
        m1.isDigit && m2.isDigit && (h2 == '-') && d1.isDigit && d2.isDigit then
      let y : Int := (digitVal y1 * 1000 + digitVal y2 * 100 + digitVal y3 * 10 + digitVal y4 : Nat)
      let m : Int := (digitVal m1 * 10 + digitVal m2 : Nat)
      let d : Int := (digitVal d1 * 10 + digitVal d2 : Nat)
      if 1 ≤ m ∧ m ≤ 12 ∧ 1 ≤ d ∧ d ≤ daysInMonth y m then
        some (daysFromCivil y m d)
      else none
    else none
  | _ => none

/-- Parses the time production HH:mm or HH:mm:ss to milliseconds within
the day. -/
def parseTimePart (cs : List Char) : Option Int :=
  match cs with
  | [hh1, hh2, c1, mm1, mm2] =>
    if hh1.isDigit && hh2.isDigit && (c1 == ':') && mm1.isDigit && mm2.isDigit then
      let h : Nat := digitVal hh1 * 10 + digitVal hh2
      let mi : Nat := digitVal mm1 * 10 + digitVal mm2
      if h ≤ 23 ∧ mi ≤ 59 then some (((h * 60 + mi) * 60000 : Nat)) else none
    else none
  | [hh1, hh2, c1, mm1, mm2, c2, ss1, ss2] =>
    if hh1.isDigit && hh2.isDigit && (c1 == ':') && mm1.isDigit && mm2.isDigit &&
        (c2 == ':') && ss1.isDigit && ss2.isDigit then
      let h : Nat := digitVal hh1 * 10 + digitVal hh2
      let mi : Nat := digitVal mm1 * 10 + digitVal mm2
      let sec : Nat := digitVal ss1 * 10 + digitVal ss2
      if h ≤ 23 ∧ mi ≤ 59 ∧ sec ≤ 59 then
        some ((((h * 60 + mi) * 60 + sec) * 1000 : Nat))
      else none
    else none
  | _ => none

/-- Embeds `Date.parse` / `new Date(string)` on the Date Time String
Format: a date-only form, or a date followed by 'T' and a time. -/
def jsDateParse (s : String) : Option Int :=
  let cs := s.data
  if cs.length = 10 then
    (parseDateLiteral cs).map (fun z => z * 86400000)
  else if cs.get? 10 = some 'T' then
    match parseDateLiteral (cs.take 10), parseTimePart (cs.drop 11) with
    | some z, some ms => some (z * 86400000 + ms)
    | _, _ => none
  else none

/-- The specification's own notion of a date-range argument (section 6:
"Date-range arguments use an inclusive YYYY-MM-DD literal format"): a
ten-character YYYY-MM-DD literal denoting a real calendar date.  Stated
for comparison against the code's looser validator. -/
def specDateLiteral (s : String) : Bool :=
  (s.length == 10) && (parseDateLiteral s.data).isSome

/-- True exactly on the successful branch of an `Except` computation. -/
def exceptIsOk : Except ε α → Bool
  | Except.ok _ => true
  | Except.error _ => false

/-- Embeds the argument gate of fireflies2md lines 33-44 and gh2md lines
29-40: exit code 1 when either argument fails Date parsing, then exit
code 1 when `endDate < startDate`; otherwise the inclusive range is
used.  The gate runs before any fetch is issued. -/
def validateDateRange (startArg endArg : String) : Except Nat (Int × Int) :=
  match jsDateParse startArg, jsDateParse endArg with
  | some ts, some te => if te < ts then Except.error 1 else Except.ok (ts, te)
  | _, _ => Except.error 1

/-- Claim C8, counterexample: "2024-01-01T00:00:00" is not a valid date
in the YYYY-MM-DD literal format, yet `new Date` parses it, so the tools
accept it instead of rejecting it with exit code 1. -/
theorem c8_cex_datetime_accepted :
    specDateLiteral "2024-01-01T00:00:00" = false ∧
    (jsDateParse "2024-01-01T00:00:00").isSome = true ∧
    exceptIsOk (validateDateRange "2024-01-01T00:00:00" "2024-12-31") = true := by
  refine ⟨by decide, by decide, by decide⟩

/-- Claim C8 (amended): the tools exit 1 before any network request when
either argument fails JavaScript Date parsing or when the end date is
strictly before the start date, and otherwise proceed with the inclusive
range; every valid YYYY-MM-DD literal passes the parse — but the
validator accepts any Date-parseable string, not only YYYY-MM-DD
literals. -/
theorem c8_date_range_validation :
    (∀ s e : String, jsDateParse s = none ∨ jsDateParse e = none →
      validateDateRange s e = Except.error 1) ∧
    (∀ (s e : String) (ts te : Int), jsDateParse s = some ts → jsDateParse e = some te →
      te < ts → validateDateRange s e = Except.error 1) ∧
    (∀ (s e : String) (ts te : Int), jsDateParse s = some ts → jsDateParse e = some te →
      ts ≤ te → validateDateRange s e = Except.ok (ts, te)) ∧
    (∀ s : String, specDateLiteral s = true → (jsDateParse s).isSome = true) := by
  refine ⟨?_, ?_, ?_, ?_⟩
  · intro s e h
    rcases h with h | h
    · rcases he2 : jsDateParse e with _ | te <;> simp [validateDateRange, h, he2]
    · rcases hs2 : jsDateParse s with _ | ts <;> simp [validateDateRange, h, hs2]
  · intro s e ts te hs he hlt
    simp only [validateDateRange, hs, he]
    rw [if_pos hlt]
  · intro s e ts te hs he hle
    simp only [validateDateRange, hs, he]
    rw [if_neg (not_lt.mpr hle)]
  · intro s hs
    simp [specDateLiteral] at hs
    have hlen2 : s.data.length = 10 := hs.1
    simp [jsDateParse, hlen2, Option.isSome_map]
    exact hs.2

/-- Claim C8 witness: a garbage argument and an inverted range exit 1, a
degenerate one-day range passes with the inclusive range, and the leap
literal 2024-02-29 parses. -/
theorem c8_witness :
    validateDateRange "garbage-xx" "2024-12-31" = Except.error 1 ∧
    validateDateRange "2024-02-02" "2024-02-01" = Except.error 1 ∧
    validateDateRange "2024-02-01" "2024-02-01" =
      Except.ok (19754 * 86400000, 19754 * 86400000) ∧
    (jsDateParse "2024-02-29").isSome = true := by
  refine ⟨?_, ?_, ?_, ?_⟩
  · exact c8_date_range_validation.1 "garbage-xx" "2024-12-31" (Or.inl (by decide))
  · exact c8_date_range_validation.2.1 "2024-02-02" "2024-02-01"
      (19755 * 86400000) (19754 * 86400000) (by decide) (by decide) (by decide)
  · exact c8_date_range_validation.2.2.1 "2024-02-01" "2024-02-01"
      (19754 * 86400000) (19754 * 86400000) (by decide) (by decide) (by decide)
  · exact c8_date_range_validation.2.2.2 "2024-02-29" (by decide)

/-! ## Result reporter of gawk

`src/gawk/src/resultReporter.js` computes success/failure and
changed/unchanged tallies and prints a summary.  Its only import is
`path`; the identifier `CONFIG` used on line 73 is neither imported nor
defined in the module (the README shows the entry point importing
`CONFIG` from `./src/config.js`, but ES-module scopes do not leak), so
evaluating `CONFIG.BACKUP_DIR` throws `ReferenceError: CONFIG is not
defined` whenever `options.backup` is truthy.  `report` is modelled as
the list of printed lines or the thrown runtime error. -/

structure TStatus where
  contentChanged : Bool
  nameChanged : Bool
deriving DecidableEq

structure TransformOutcome where
  success : Bool
  status : Option TStatus
  originalPath : String
  newPath : String
  filepath : String
  errorMsg : String
deriving DecidableEq

structure ReportOptions where
  recursive : Bool
  contentPrompt : Bool
  filenamePrompt : Bool
  backup : Bool
deriving DecidableEq

inductive JsRuntimeError where
  | referenceError (name : String)
  | typeError (msg : String)
deriving DecidableEq

/-- Models Node's `path.dirname` for forward-slash paths: the part
before the last '/', or "." when there is no slash. -/
def pathDirname (s : String) : String :=
  let parts := s.splitOn "/"
  if parts.length ≤ 1 then "." else String.intercalate "/" parts.dropLast

/-- Models Node's `path.basename` for forward-slash paths. -/
def pathBasename (s : String) : String :=
  (s.splitOn "/").getLastD ""

structure DirStats where
  contentChanged : Nat
  nameChanged : Nat
  unchanged : Nat
deriving DecidableEq

/-- Applies one successful result to the per-directory tallies, keyed in
insertion order like a JS object. -/
def bumpDir (acc : List (String × DirStats)) (dir : String) (st : TStatus) :
    List (String × DirStats) :=
  let upd := fun (d : DirStats) =>
    ⟨d.contentChanged + (if st.contentChanged then 1 else 0),
     d.nameChanged + (if st.nameChanged then 1 else 0),
     d.unchanged + (if !st.contentChanged && !st.nameChanged then 1 else 0)⟩
  match acc with
  | [] => [(dir, upd ⟨0, 0, 0⟩)]
  | (k, v) :: t => if k = dir then (k, upd v) :: t else (k, v) :: bumpDir t dir st

/-- Embeds `groupResultsByDirectory`: failures are skipped; a successful
result without a `status` object throws a TypeError there, because that
code path reads `result.status.contentChanged` without optional
chaining. -/
def groupResultsByDirectory (results : List TransformOutcome) :
    Except JsRuntimeError (List (String × DirStats)) :=
  results.foldlM
    (fun acc r =>
      if r.success = false then pure acc
      else
        match r.status with
        | none => Except.error
            (JsRuntimeError.typeError "Cannot read properties of undefined")
        | some st => pure (bumpDir acc (pathDirname r.originalPath) st))
    []

/-- Embeds `ResultReporter.report(results, options)` as the list of
lines written to the console, or the runtime error it throws. -/
def report (results : List TransformOutcome) (options : ReportOptions) :
    Except JsRuntimeError (List String) :=
  let successful := results.filter (fun r => r.success)
  let contentChanged := successful.filter
    (fun r => (r.status.map TStatus.contentChanged).getD false)
  let nameChanged := successful.filter
    (fun r => (r.status.map TStatus.nameChanged).getD false)
  let unchanged := successful.filter
    (fun r => r.success && !(r.status.map TStatus.contentChanged).getD false &&
      !(r.status.map TStatus.nameChanged).getD false)
  let failed := results.filter (fun r => !r.success)
  let header := ["Processing complete:",
    "✓ Successfully processed " ++ toString successful.length ++ " files:"]
  let bodyE : Except JsRuntimeError (List String) :=
    if options.recursive then
      (groupResultsByDirectory results).map (fun groups =>
        (groups.map (fun g =>
          ["", "Directory: " ++ g.1] ++
          (if options.contentPrompt && g.2.contentChanged > 0 then
            ["  - " ++ toString g.2.contentChanged ++ " files had content changed"]
          else []) ++
          (if options.filenamePrompt && g.2.nameChanged > 0 then
            ["  - " ++ toString g.2.nameChanged ++ " files were renamed"]
          else []) ++
          ["  - " ++ toString g.2.unchanged ++ " files unchanged"])).flatten)
    else
      Except.ok
        ((if options.contentPrompt then
          ["  - " ++ toString contentChanged.length ++ " files had content changed"]
        else []) ++
        (if options.filenamePrompt then
          ["  - " ++ toString nameChanged.length ++ " files were renamed"]
        else []) ++
        ["  - " ++ toString unchanged.length ++ " files unchanged"])
  match bodyE with
  | Except.error err => Except.error err
  | Except.ok body =>
    let renamed :=
      if nameChanged.length > 0 then
        "Renamed files:" :: nameChanged.map (fun r =>
          "  " ++ pathBasename r.originalPath ++ " -> " ++ pathBasename r.newPath)
      else []
    let failedLines :=
      if failed.length > 0 then
        ("✗ Failed to process " ++ toString failed.length ++ " files:") ::
          failed.map (fun r => "  - " ++ pathBasename r.filepath ++ ": " ++ r.errorMsg)
      else []
    if options.backup then Except.error (JsRuntimeError.referenceError "CONFIG")
    else Except.ok (header ++ body ++ renamed ++ failedLines)

/-- Claim C5: the specification requires `report` never to throw, but
whenever `options.backup` is truthy the undefined identifier `CONFIG` on
line 73 throws a ReferenceError — shown at the empty batch and for every
result list in non-recursive mode.  With `options.backup` falsy the
non-recursive report indeed never throws. -/
theorem c5_report_backup_reference_error :
    report [] ⟨false, false, false, true⟩ =
      Except.error (JsRuntimeError.referenceError "CONFIG") ∧
    (∀ (results : List TransformOutcome) (co fp : Bool),
      report results ⟨false, co, fp, true⟩ =
        Except.error (JsRuntimeError.referenceError "CONFIG")) ∧
    (∀ (results : List TransformOutcome) (co fp : Bool),
      exceptIsOk (report results ⟨false, co, fp, false⟩) = true) := by
  refine ⟨rfl, ?_, ?_⟩
  · intro results co fp
    simp [report]
  · intro results co fp
    simp [report, exceptIsOk]

/-! ## Receipt output validation (receipt2fic / create-fic-receipt)

`src/unnamed/part_004` lines 92-126: `validateOutput` filters the
required fields `currency, net, date, payee` by JavaScript falsiness,
throws on any missing, then validates the currency code, the net
amount, the optional VAT amount (defaulting `undefined`/`null` to 0
with a warning), and the date, returning the normalized record. -/

/-- JavaScript falsiness: `undefined`, `null`, `false`, `0`, `NaN` and
the empty string are falsy. -/
def isFalsy : JsVal → Bool
  | JsVal.undef => true
  | JsVal.null => true
  | JsVal.boolean b => !b
  | JsVal.number none => true
  | JsVal.number (some q) => q == 0
  | JsVal.strVal s => s == ""

/-- String coercion as the validator's checks apply it.  Numbers are
rendered only in their integral form (the sole number reaching a
coercion here is the defaulted VAT value 0). -/
def jsToString : JsVal → String
  | JsVal.undef => "undefined"
  | JsVal.null => "null"
  | JsVal.boolean b => if b then "true" else "false"
  | JsVal.number none => "NaN"
  | JsVal.number (some q) => toString q.num
  | JsVal.strVal s => s

def digitsToNat (ds : List Char) : Nat :=
  ds.foldl (fun a c => a * 10 + digitVal c) 0

def takeDigits : List Char → List Char
  | [] => []
  | c :: t => if c.isDigit then c :: takeDigits t else []

def dropDigits : List Char → List Char
  | [] => []
  | c :: t => if c.isDigit then dropDigits t else c :: t

/-- Embeds `parseFloat` on the decimal forms these tools produce:
optional leading whitespace and sign, integer digits, optional
fractional digits; `none` models NaN.  Exponent forms are not
modelled. -/
def parseLeadingFloat (s : String) : Option ℚ :=
  let cs := s.data.dropWhile (fun c => jsWhitespace c)
  let neg : Bool := match cs with
    | c :: _ => c == '-'
    | [] => false
  let cs2 : List Char := match cs with
    | c :: t => if c == '-' || c == '+' then t else cs
    | [] => []
  let ip := takeDigits cs2
  let fp : List Char := match dropDigits cs2 with
    | c :: t => if c == '.' then takeDigits t else []
    | [] => []
  if ip.isEmpty && fp.isEmpty then none
  else
    let mag : ℚ :=
      if fp.isEmpty then (digitsToNat ip : ℚ)
      else (digitsToNat ip : ℚ) + (digitsToNat fp : ℚ) / (10 : ℚ) ^ fp.length
    some (if neg then -mag else mag)

def parseFloatJs (v : JsVal) : Option ℚ :=
  parseLeadingFloat (jsToString v)

/-- Embeds the regex test `/^[A-Z]{3}$/.test(currency)`. -/
def isCurrencyCode (s : String) : Bool :=
  match s.data with
  | [a, b, c] => (65 ≤ a.toNat && a.toNat ≤ 90) && (65 ≤ b.toNat && b.toNat ≤ 90) &&
      (65 ≤ c.toNat && c.toNat ≤ 90)
  | _ => false

def pad2 (n : Int) : String :=
  if n < 10 then "0" ++ toString n else toString n

/-- The date part of `new Date(ms).toISOString()`, i.e.
`toISOString().split('T')[0]`. -/
def isoDatePart (ms : Int) : String :=
  let c := civilFromDays (Int.fdiv ms 86400000)
  toString c.1 ++ "-" ++ pad2 c.2.1 ++ "-" ++ pad2 c.2.2

structure ReceiptData where
  currency : JsVal
  net : JsVal
  date : JsVal
  payee : JsVal
  vat : JsVal
deriving DecidableEq

structure ReceiptOutput where
  currency : JsVal
  payee : JsVal
  net : ℚ
  vat : ℚ
  date : String
deriving DecidableEq

/-- Embeds `validateOutput` of `src/unnamed/part_004` lines 92-126:
required fields are filtered by falsiness in the order currency, net,
date, payee; then the currency regex, the net parseFloat, the VAT check
(`undefined`/`null` are exempt and later defaulted to the number 0
before `parseFloat(data.vat)`), and the date parse run in order; the
returned record carries the parsed net and VAT and the ISO-normalized
date. -/
def validateOutput (d : ReceiptData) : Except String ReceiptOutput :=
  let missing :=
    (if isFalsy d.currency then ["currency"] else []) ++
    (if isFalsy d.net then ["net"] else []) ++
    (if isFalsy d.date then ["date"] else []) ++
    (if isFalsy d.payee then ["payee"] else [])
  if missing ≠ [] then
    Except.error ("Missing required fields: " ++ String.intercalate ", " missing)
  else if !isCurrencyCode (jsToString d.currency) then
    Except.error "Invalid currency ISO code"
  else if (parseFloatJs d.net).isNone then
    Except.error "Invalid net amount value"
  else if (¬ (d.vat = JsVal.undef ∨ d.vat = JsVal.null)) ∧ (parseFloatJs d.vat).isNone then
    Except.error "Invalid VAT amount value"
  else if (jsDateParse (jsToString d.date)).isNone then
    Except.error "Invalid date format"
  else
    Except.ok ⟨d.currency, d.payee, (parseFloatJs d.net).getD 0,
      (parseFloatJs (if d.vat = JsVal.undef ∨ d.vat = JsVal.null then
        JsVal.number (some 0) else d.vat)).getD 0,
      isoDatePart ((jsDateParse (jsToString d.date)).getD 0)⟩

deriving instance DecidableEq for Except

set_option maxHeartbeats 2000000 in
/-- Characterization of the successful branch of `validateOutput`: the
returned record is built from the parsed fields, with VAT defaulted to
0 when the input VAT is `undefined` or `null`. -/
theorem validateOutput_ok (d : ReceiptData) (out : ReceiptOutput)
    (hok : validateOutput d = Except.ok out) :
    out = ⟨d.currency, d.payee, (parseFloatJs d.net).getD 0,
      (parseFloatJs (if d.vat = JsVal.undef ∨ d.vat = JsVal.null then
        JsVal.number (some 0) else d.vat)).getD 0,
      isoDatePart ((jsDateParse (jsToString d.date)).getD 0)⟩ := by
  by_cases hvat : d.vat = JsVal.undef ∨ d.vat = JsVal.null
  · rw [if_pos hvat]
    simp only [validateOutput, if_pos hvat] at hok
    split_ifs at hok <;>
      first
        | (simp only [Except.ok.injEq] at hok; exact hok.symm)
        | exact absurd hok (by simp)
  · rw [if_neg hvat]
    simp only [validateOutput, if_neg hvat] at hok
    split_ifs at hok <;>
      first
        | (simp only [Except.ok.injEq] at hok; exact hok.symm)
        | exact absurd hok (by simp)

/-- Claim C10: any falsy required field — including a net amount equal
to the number 0 or to the empty string — makes `validateOutput` throw a
"Missing required fields" error, while an `undefined` or `null` VAT
never causes an error: every successful validation of such data returns
VAT 0, and on otherwise-valid data validation does succeed with VAT 0. -/
theorem c10_receipt_required_fields_and_vat :
    (∀ d : ReceiptData,
      (isFalsy d.currency || isFalsy d.net || isFalsy d.date || isFalsy d.payee) = true →
      ∃ rest, validateOutput d = Except.error ("Missing required fields: " ++ rest)) ∧
    validateOutput ⟨JsVal.strVal "EUR", JsVal.number (some 0), JsVal.strVal "2024-01-01",
        JsVal.strVal "Acme", JsVal.strVal "1"⟩ =
      Except.error "Missing required fields: net" ∧
    validateOutput ⟨JsVal.strVal "EUR", JsVal.strVal "", JsVal.strVal "2024-01-01",
        JsVal.strVal "Acme", JsVal.strVal "1"⟩ =
      Except.error "Missing required fields: net" ∧
    (∀ (d : ReceiptData) (out : ReceiptOutput),
      (d.vat = JsVal.undef ∨ d.vat = JsVal.null) →
      validateOutput d = Except.ok out → out.vat = 0) ∧
    validateOutput ⟨JsVal.strVal "EUR", JsVal.strVal "100", JsVal.strVal "2024-01-01",
        JsVal.strVal "Acme", JsVal.undef⟩ =
      Except.ok ⟨JsVal.strVal "EUR", JsVal.strVal "Acme", 100, 0, "2024-01-01"⟩ := by
  refine ⟨?_, by decide, by decide, ?_, by decide⟩
  · intro d h
    have hne : ((if isFalsy d.currency then ["currency"] else []) ++
        (if isFalsy d.net then ["net"] else []) ++
        (if isFalsy d.date then ["date"] else []) ++
        (if isFalsy d.payee then ["payee"] else [])) ≠ [] := by
      simp only [Bool.or_eq_true] at h
      rcases h with ((h | h) | h) | h <;> simp [h]
    refine ⟨String.intercalate ", "
      ((if isFalsy d.currency then ["currency"] else []) ++
        (if isFalsy d.net then ["net"] else []) ++
        (if isFalsy d.date then ["date"] else []) ++
        (if isFalsy d.payee then ["payee"] else [])), ?_⟩
    simp only [validateOutput]
    rw [if_pos hne]
  · intro d out hvat hok
    have hchar := validateOutput_ok d out hok
    rw [hchar]
    show (parseFloatJs (if d.vat = JsVal.undef ∨ d.vat = JsVal.null then
      JsVal.number (some 0) else d.vat)).getD 0 = 0
    rw [if_pos hvat]
    decide

/-- Claim C10 witness: a record whose net holds the number 0 is rejected
as missing even though 0 is numerically valid. -/
theorem c10_witness :
    (isFalsy (JsVal.number (some 0)) = true) ∧
    (∃ rest,
      validateOutput ⟨JsVal.strVal "EUR", JsVal.number (some 0), JsVal.strVal "2024-01-01",
        JsVal.strVal "Acme", JsVal.undef⟩ =
      Except.error ("Missing required fields: " ++ rest)) :=
  ⟨by decide,
   c10_receipt_required_fields_and_vat.1
     ⟨JsVal.strVal "EUR", JsVal.number (some 0), JsVal.strVal "2024-01-01",
      JsVal.strVal "Acme", JsVal.undef⟩ (by decide)⟩

end Toolbox
